import Mathlib

/-
Shallow embedding of the thread-churn stressor of stress-ng
(src/stress-pthread.c): the worker function stress_pthread_func and the
engine stress_pthread.  Concurrency is resolved by an environment record
that fixes the outcome of every external call (pthread_create, mutex and
spinlock operations, condition waits, joins, the robust-list syscalls and
the harness flags); the engine and the worker are then pure functions of
that environment, and the engine additionally emits a trace of the
shared-state events (termination-flag writes tagged with whether the
mutex is held, create, signal, broadcast and join events) in program
order.
-/

namespace StressPthread

/-- Linux errno value for resource exhaustion, EAGAIN. -/
def EAGAIN : Nat := 11

/-- Linux errno value for an unimplemented syscall, ENOSYS. -/
def ENOSYS : Nat := 38

/-- Standard exit status for success. -/
def EXIT_SUCCESS : Nat := 0

/-- Standard exit status for failure. -/
def EXIT_FAILURE : Nat := 1

/-- Pointer value returned by a worker thread: the null pointer or the
address of the static sentinel variable nowt in stress_pthread_func
(the code has a single return statement, return &nowt, reached both by
the fall-through path and by the die label). -/
inductive PtrVal where
  | null
  | nowtAddr
  deriving DecidableEq, Repr

/-- Environment of one worker thread: outcome of every external call
stress_pthread_func performs, in program order.  A return value of 0
models success of the pthread calls; getRobustErr and setRobustErr are
none on success and some errno on failure; falseChecks is the number of
times the worker observes the termination flag still false at the top of
its wait loop before observing it true, and waitRet gives the return
value of each pthread_cond_wait call. -/
structure WEnv where
  sigaltstackOk : Bool
  tid : Nat
  getRobustErr : Option Nat
  setRobustErr : Option Nat
  spinLockRet : Nat
  spinUnlockRet : Nat
  mutexLockRet : Nat
  falseChecks : Nat
  waitRet : Nat → Nat
  mutexUnlockRet : Nat

/-- Observable outcome of one worker thread: the returned pointer, the
tid it recorded into its slot, which control points it reached
(robust-list query, robust-list re-registration, the registration step
guarded by the spinlock, the increment of pthread_count, the
condition-variable wait), and the pr_fail diagnostics it emitted. -/
structure WOut where
  ret : PtrVal
  tidWritten : Option Nat
  probedGet : Bool
  probedSet : Bool
  reachedRegistration : Bool
  counted : Bool
  enteredWait : Bool
  fails : List String
  deriving DecidableEq, Repr

/-- Wait loop of the worker (lines 159-166 of stress-pthread.c): while
the termination flag is observed false, call pthread_cond_wait; a
non-zero wait return breaks out of the loop.  Returns the first wait
error, or none when the loop exits because the flag was observed
true. -/
def condWaitLoop (waitRet : Nat → Nat) : Nat → Nat → Option Nat
  | 0, _ => none
  | n+1, k => if waitRet k ≠ 0 then some (waitRet k) else condWaitLoop waitRet n (k+1)

/-- Tail of the worker after the diagnostic probe (lines 135-188 of
stress-pthread.c): take the spinlock, bump pthread_count, drop the
spinlock, then take the mutex and park on the condition variable until
the termination flag is observed true or a wait fails, unlock, and
return the sentinel.  Any lock error logs a diagnostic and jumps to the
die label, which still returns the sentinel.  The argument tidW carries
the already-recorded tid, pg and ps whether the robust-list query and
re-registration were attempted, and fs the diagnostics emitted so
far. -/
def afterProbe (env : WEnv) (tidW : Option Nat) (pg ps : Bool) (fs : List String) : WOut :=
  if env.spinLockRet ≠ 0 then
    ⟨PtrVal.nowtAddr, tidW, pg, ps, true, false, false, fs ++ ["spinlock lock"]⟩
  else if env.spinUnlockRet ≠ 0 then
    ⟨PtrVal.nowtAddr, tidW, pg, ps, true, true, false, fs ++ ["spin unlock"]⟩
  else if env.mutexLockRet ≠ 0 then
    ⟨PtrVal.nowtAddr, tidW, pg, ps, true, true, false, fs ++ ["mutex unlock"]⟩
  else
    let werr := condWaitLoop env.waitRet env.falseChecks 0
    let fs1 := fs ++ (match werr with
      | some _ => ["pthread condition wait"]
      | none => [])
    let fs2 := fs1 ++ (if env.mutexUnlockRet ≠ 0 then ["mutex unlock"] else [])
    ⟨PtrVal.nowtAddr, tidW, pg, ps, true, true, true, fs2⟩

/-- Worker function stress_pthread_func (lines 78-189 of
stress-pthread.c): block signals, set up the alternate signal stack
(failure jumps to die before anything else happens), record the tid,
run the robust-list diagnostic probe (an errno other than ENOSYS from
either syscall jumps to die; ENOSYS is tolerated and the worker
continues), then register and wait via afterProbe. -/
def stress_pthread_func (env : WEnv) : WOut :=
  if !env.sigaltstackOk then
    ⟨PtrVal.nowtAddr, none, false, false, false, false, false, []⟩
  else
    let tidW := some env.tid
    match env.getRobustErr with
    | some e =>
      if e ≠ ENOSYS then
        ⟨PtrVal.nowtAddr, tidW, true, false, false, false, false, ["get_robust_list"]⟩
      else afterProbe env tidW true false []
    | none =>
      match env.setRobustErr with
      | some e =>
        if e ≠ ENOSYS then
          ⟨PtrVal.nowtAddr, tidW, true, true, false, false, false, ["set_robust_list"]⟩
        else afterProbe env tidW true true []
      | none => afterProbe env tidW true true []

/-- Events emitted by the engine, in program order: writes of the shared
termination flag (tagged with the value written and whether the engine
holds the mutex at that point), thread creation, the directed tgkill
nudge, the mutex acquire and release of the broadcaster, the condition
broadcast, joins, and pr_fail diagnostics. -/
inductive Ev where
  | flagWrite (v : Bool) (underMutex : Bool)
  | create (idx : Nat)
  | join (idx : Nat)
  | mlock
  | signal (tid : Nat)
  | bcast
  | munlock
  | prFail (msg : String)
  deriving DecidableEq, Repr

/-- Environment of one engine run: the configured maximum, the op
budget (0 means uncapped), the outcomes of the initialization calls, and
per-iteration / per-index outcomes of every external call the engine
makes.  keepFlag it i is the value of g_keep_stressing_flag observed
right after the successful create of thread i in iteration it; keepEnd
it is the value observed by the keep_stressing() check at the bottom of
iteration it. -/
structure EEnv where
  pthread_max : Nat
  max_ops : Nat
  sighandlerFail : Bool
  condInitRet : Nat
  spinInitRet : Nat
  mutexInitRet : Nat
  createRet : Nat → Nat → Nat
  keepFlag : Nat → Nat → Bool
  keepEnd : Nat → Bool
  pollLockRet : Nat → Nat → Nat
  pollUnlockRet : Nat → Nat → Nat
  pollCountObs : Nat → Nat → Nat
  bcastLockRet : Nat → Nat
  bcastRet : Nat → Nat
  bcastUnlockRet : Nat → Nat
  tids : Nat → Nat → Nat
  joinRet : Nat → Nat → Nat

/-- Reason the spawn loop of an iteration stopped: the loop condition
became false because i reached pthread_max (complete) or because the op
budget was exhausted (budget); or a break fired on EAGAIN from
pthread_create (eagain), on any other create error (fatal), or on
observing g_keep_stressing_flag cleared after a successful create
(stopFlag). -/
inductive SpawnExit where
  | complete
  | budget
  | eagain
  | fatal
  | stopFlag
  deriving DecidableEq, Repr

/-- Result of the spawn loop: the final value of the loop variable i
(which bounds the later tgkill, poll-comparison and join loops), the
number of threads actually created by pthread_create, the op counter,
the exit reason and the emitted events. -/
structure SpawnRes where
  iFinal : Nat
  created : Nat
  counter : Nat
  exit : SpawnExit
  trace : List Ev
  deriving DecidableEq, Repr

/-- Spawn loop of one iteration (lines 240-259 of stress-pthread.c):
for (i = 0; i < pthread_max and the op budget allows; i++) create a
thread; on EAGAIN count the iteration as limited and break; on any
other create error log, clear ok and break; on success bump the op
counter and break if g_keep_stressing_flag is observed cleared (note
that this last break leaves the loop variable i one short of the number
of threads created).  The first argument of the recursion is the
remaining fuel pthread_max - i. -/
def spawnLoopAux (env : EEnv) (it : Nat) : Nat → Nat → Nat → SpawnRes
  | 0, i, c => ⟨i, i, c, SpawnExit.complete, []⟩
  | fuel+1, i, c =>
    if env.max_ops ≠ 0 ∧ env.max_ops ≤ c then ⟨i, i, c, SpawnExit.budget, []⟩
    else if env.createRet it i = 0 then
      (if env.keepFlag it i then
        let rest := spawnLoopAux env it fuel (i+1) (c+1)
        ⟨rest.iFinal, rest.created, rest.counter, rest.exit, Ev.create i :: rest.trace⟩
      else ⟨i, i+1, c+1, SpawnExit.stopFlag, [Ev.create i]⟩)
    else if env.createRet it i = EAGAIN then ⟨i, i, c, SpawnExit.eagain, []⟩
    else ⟨i, i, c, SpawnExit.fatal, [Ev.prFail "pthread create"]⟩

/-- Bounded barrier poll (lines 266-285 of stress-pthread.c): up to
1000 rounds, lock the mutex, read pthread_count, unlock, and stop when
the observed count equals the spawn loop variable; a lock or unlock
error logs, clears ok and jumps to reap (second component false means
the broadcaster is skipped). -/
def pollAux (pl pu co : Nat → Nat) (n : Nat) : Nat → Nat → Bool → Bool × Bool × List Ev
  | 0, _, ok => (ok, true, [])
  | fuel+1, j, ok =>
    if pl j ≠ 0 then (false, false, [Ev.prFail "mutex lock"])
    else if pu j ≠ 0 then (false, false, [Ev.prFail "mutex unlock"])
    else if co j = n then (ok, true, [])
    else pollAux pl pu co n fuel (j+1) ok

/-- Termination broadcaster (lines 287-310 of stress-pthread.c): lock
the mutex (a lock error logs, clears ok and jumps to reap without
setting the flag), send the tgkill nudge to every slot j < n whose
recorded tid is non-zero, set the termination flag to true, broadcast
the condition variable (an error logs and clears ok but still falls
through), and unlock (an error logs and clears ok).  Returns the ok
flag, whether the termination flag was set, and the trace. -/
def broadcastPhase (bl br bu : Nat) (tid : Nat → Nat) (n : Nat) (ok : Bool) :
    Bool × Bool × List Ev :=
  if bl ≠ 0 then (false, false, [Ev.prFail "mutex lock"])
  else
    (ok && (br == 0) && (bu == 0), true,
      Ev.mlock ::
        ((List.range n).filterMap fun j =>
          if tid j ≠ 0 then some (Ev.signal (tid j)) else none) ++
        [Ev.flagWrite true true, Ev.bcast] ++
        (if br = 0 then [] else [Ev.prFail "pthread condition broadcast"]) ++
        [Ev.munlock] ++
        (if bu = 0 then [] else [Ev.prFail "mutex unlock"]))

/-- Reap phase (lines 312-319 of stress-pthread.c): join the handles
with index j < n in spawn order; a join error logs and clears ok but
the loop continues over every handle. -/
def reapAux (jr : Nat → Nat) : Nat → Nat → Bool → Bool × List Ev
  | 0, _, ok => (ok, [])
  | n+1, j, ok =>
    let rest := reapAux jr n (j+1) (ok && (jr j == 0))
    (rest.1, (Ev.join j :: (if jr j = 0 then [] else [Ev.prFail "pthread join"])) ++ rest.2)

/-- Everything an iteration does after its spawn loop: the bounded
barrier poll, then (unless the poll jumped to reap) the termination
broadcaster, then the reap.  None of its parameters involves the
harness stop flag: the phases past the spawn loop never consult it.
Returns the ok flag, whether the termination flag was set, and the
trace. -/
def postPhase (pl pu co : Nat → Nat) (bl br bu : Nat) (tid jr : Nat → Nat)
    (n : Nat) (ok : Bool) : Bool × Bool × List Ev :=
  if (pollAux pl pu co n 1000 0 ok).2.1 then
    ((reapAux jr n 0 (broadcastPhase bl br bu tid n (pollAux pl pu co n 1000 0 ok).1).1).1,
     (broadcastPhase bl br bu tid n (pollAux pl pu co n 1000 0 ok).1).2.1,
     (pollAux pl pu co n 1000 0 ok).2.2 ++
       (broadcastPhase bl br bu tid n (pollAux pl pu co n 1000 0 ok).1).2.2 ++
       (reapAux jr n 0 (broadcastPhase bl br bu tid n (pollAux pl pu co n 1000 0 ok).1).1).2)
  else
    ((reapAux jr n 0 (pollAux pl pu co n 1000 0 ok).1).1, false,
     (pollAux pl pu co n 1000 0 ok).2.2 ++ (reapAux jr n 0 (pollAux pl pu co n 1000 0 ok).1).2)

/-- Engine counters threaded through the do-while loop: the global op
counter, the run-failure flag ok, and the limited and attempted
iteration statistics. -/
structure IterSt where
  counter : Nat
  ok : Bool
  limited : Nat
  attempted : Nat
  deriving DecidableEq, Repr

/-- Per-iteration observables: the final spawn loop variable, the
number of threads created, the number of join calls performed by the
reap, the spawn exit reason, whether the termination flag is set at the
end of the iteration, and the event trace of the iteration. -/
structure IterOut where
  iFinal : Nat
  created : Nat
  joined : Nat
  exit : SpawnExit
  flagAfter : Bool
  trace : List Ev
  deriving DecidableEq, Repr

/-- One iteration of the engine do-while loop (lines 232-319 of
stress-pthread.c): reset the termination flag to false (without holding
the mutex) and zero the slots, run the spawn loop, bump attempted,
count the iteration as limited if the spawn loop hit EAGAIN, clear ok
if it hit a fatal create error, and run the post phases (poll,
broadcaster, reap) bounded by the final spawn loop variable. -/
def engineIter (env : EEnv) (it : Nat) (st : IterSt) : IterSt × IterOut :=
  let sp := spawnLoopAux env it env.pthread_max 0 st.counter
  let ok1 := st.ok && !(sp.exit == SpawnExit.fatal)
  let post := postPhase (env.pollLockRet it) (env.pollUnlockRet it) (env.pollCountObs it)
      (env.bcastLockRet it) (env.bcastRet it) (env.bcastUnlockRet it)
      (env.tids it) (env.joinRet it) sp.iFinal ok1
  (⟨sp.counter, post.1,
    st.limited + (if sp.exit = SpawnExit.eagain then 1 else 0),
    st.attempted + 1⟩,
   ⟨sp.iFinal, sp.created, sp.iFinal, sp.exit, post.2.1,
    Ev.flagWrite false false :: (sp.trace ++ post.2.2)⟩)

/-- The keep_stressing() check at the bottom of the do-while loop:
g_keep_stressing_flag observed true and the op budget not exhausted. -/
def keepStressingEnd (env : EEnv) (it c : Nat) : Bool :=
  env.keepEnd it && (env.max_ops == 0 || decide (c < env.max_ops))

/-- The engine do-while loop (lines 232-320 of stress-pthread.c): run
one iteration, then continue while ok is still set and keep_stressing()
holds.  The fuel argument bounds the number of additional iterations
the harness allows, modelling the external time budget. -/
def engineLoop (env : EEnv) : Nat → Nat → IterSt → IterSt × List Ev
  | 0, it, st =>
    let x := engineIter env it st
    (x.1, x.2.trace)
  | fuel+1, it, st =>
    let x := engineIter env it st
    if x.1.ok && keepStressingEnd env it x.1.counter then
      let rest := engineLoop env fuel (it+1) x.1
      (rest.1, x.2.trace ++ rest.2)
    else (x.1, x.2.trace)

/-- Initial engine counters: counter 0, ok true, limited 0, attempted 0. -/
def st0 : IterSt := ⟨0, true, 0, 0⟩

/-- Whether any of the initialization steps of stress_pthread fails
(signal handler installation, pthread_cond_init, pthread_spin_init,
pthread_mutex_init, lines 203-229); each such failure returns
EXIT_FAILURE before the loop starts. -/
def initFails (env : EEnv) : Bool :=
  env.sighandlerFail || (env.condInitRet != 0) || (env.spinInitRet != 0)
    || (env.mutexInitRet != 0)

/-- Result of a whole stress_pthread run: the exit status, the final
counters, and the event trace. -/
structure RunOut where
  exitCode : Nat
  st : IterSt
  trace : List Ev
  deriving DecidableEq, Repr

/-- The engine stress_pthread (lines 195-336 of stress-pthread.c): an
initialization failure returns EXIT_FAILURE at once; otherwise the
do-while loop runs and the function returns EXIT_SUCCESS, whatever
errors the loop recorded in ok (line 335 returns EXIT_SUCCESS
unconditionally). -/
def stress_pthread (env : EEnv) (fuel : Nat) : RunOut :=
  if initFails env then ⟨EXIT_FAILURE, st0, []⟩
  else
    let x := engineLoop env fuel 0 st0
    ⟨EXIT_SUCCESS, x.1, x.2⟩

/-- Recognizer for create events. -/
def isCreate : Ev → Bool
  | Ev.create _ => true
  | _ => false

/-- Recognizer for join events. -/
def isJoin : Ev → Bool
  | Ev.join _ => true
  | _ => false

/-- Number of create events in a trace. -/
def cCount (l : List Ev) : Nat := l.countP isCreate

/-- Number of join events in a trace. -/
def jCount (l : List Ev) : Nat := l.countP isJoin

/-- Value-changing writes of the termination flag along a trace,
starting from a given flag value: each pair records the new value and
whether the mutex was held at the write. -/
def flagTransitions : Bool → List Ev → List (Bool × Bool)
  | _, [] => []
  | f, Ev.flagWrite v u :: rest =>
    if v = f then flagTransitions f rest else (v, u) :: flagTransitions v rest
  | f, _ :: rest => flagTransitions f rest

/-- Checks that at every write of false to the termination flag the
number of create events seen so far equals the number of join events
seen so far (starting from the given counts): the reset for a new
iteration happens only when every previously created thread has been
joined. -/
def balancedAt : Nat → Nat → List Ev → Bool
  | _, _, [] => true
  | c, j, Ev.flagWrite false _ :: rest => c == j && balancedAt c j rest
  | c, j, Ev.create _ :: rest => balancedAt (c+1) j rest
  | c, j, Ev.join _ :: rest => balancedAt c (j+1) rest
  | c, j, _ :: rest => balancedAt c j rest

/-- Recognizer for termination-flag writes. -/
def isFW : Ev → Bool
  | Ev.flagWrite _ _ => true
  | _ => false

/-- Worker environment in which the alternate-stack setup fails. -/
def wEnvAlt : WEnv := ⟨false, 7, none, none, 0, 0, 0, 0, fun _ => 0, 0⟩

/-- Worker environment in which get_robust_list fails with ENOSYS and
everything else succeeds (one false flag check before the flag is
observed true). -/
def wEnvProbe : WEnv := ⟨true, 9, some ENOSYS, none, 0, 0, 0, 1, fun _ => 0, 0⟩

/-- Worker environment in which everything succeeds. -/
def wEnvSent : WEnv := ⟨true, 3, none, none, 0, 0, 0, 2, fun _ => 0, 0⟩

/-- Engine environment where every create succeeds but the harness stop
flag is observed cleared right after the first successful create of
iteration 0: the spawn loop breaks with the loop variable still 0
although one thread was created. -/
def envLeak : EEnv :=
  ⟨2, 0, false, 0, 0, 0, fun _ _ => 0, fun _ _ => false, fun _ => false,
   fun _ _ => 0, fun _ _ => 0, fun _ _ => 0, fun _ => 0, fun _ => 0, fun _ => 0,
   fun _ _ => 0, fun _ _ => 0⟩

/-- Engine environment where the very first pthread_create fails with
errno 22 (EINVAL), an unexpected synchronization-class error. -/
def envFatal : EEnv :=
  ⟨2, 0, false, 0, 0, 0, fun _ _ => 22, fun _ _ => true, fun _ => true,
   fun _ _ => 0, fun _ _ => 0, fun _ _ => 0, fun _ => 0, fun _ => 0, fun _ => 0,
   fun _ _ => 0, fun _ _ => 0⟩

/-- Engine environment with pthread-max 3 where attempt 0 succeeds and
attempt 1 fails with EAGAIN; every synchronization call succeeds and
the barrier poll observes the expected count at once. -/
def envEag : EEnv :=
  ⟨3, 0, false, 0, 0, 0, fun _ i => if i = 1 then EAGAIN else 0,
   fun _ _ => true, fun _ => false,
   fun _ _ => 0, fun _ _ => 0, fun _ _ => 1, fun _ => 0, fun _ => 0, fun _ => 0,
   fun _ _ => 0, fun _ _ => 0⟩

/-- Engine environment with pthread-max 3 where every call succeeds and
the stop flag stays set throughout the spawn loop. -/
def envC6 : EEnv :=
  ⟨3, 0, false, 0, 0, 0, fun _ _ => 0, fun _ _ => true, fun _ => false,
   fun _ _ => 0, fun _ _ => 0, fun _ _ => 3, fun _ => 0, fun _ => 0, fun _ => 0,
   fun _ _ => 0, fun _ _ => 0⟩

/-- Engine environment with pthread-max 1 that runs two iterations: the
stop flag is observed set during iteration 0 and its end-of-iteration
check, and cleared at the end of iteration 1.  Everything succeeds and
the poll observes the expected count at once. -/
def env5x : EEnv :=
  ⟨1, 0, false, 0, 0, 0, fun _ _ => 0, fun _ _ => true, fun it => it == 0,
   fun _ _ => 0, fun _ _ => 0, fun _ _ => 1, fun _ => 0, fun _ => 0, fun _ => 0,
   fun _ _ => 0, fun _ _ => 0⟩

/-- Engine environment like env5x but with the stop flag never
cleared inside the spawn loop, so the flag observations are trivially
monotone. -/
def env5w : EEnv :=
  ⟨1, 0, false, 0, 0, 0, fun _ _ => 0, fun _ _ => true, fun it => it == 0,
   fun _ _ => 0, fun _ _ => 0, fun _ _ => 1, fun _ => 0, fun _ => 0, fun _ => 0,
   fun _ _ => 0, fun _ _ => 0⟩

/-- Engine environment with pthread-max 1 where everything succeeds and
the harness stops the run after the first iteration. -/
def envC10 : EEnv :=
  ⟨1, 0, false, 0, 0, 0, fun _ _ => 0, fun _ _ => true, fun _ => false,
   fun _ _ => 0, fun _ _ => 0, fun _ _ => 1, fun _ => 0, fun _ => 0, fun _ => 0,
   fun _ _ => 0, fun _ _ => 0⟩

/-- Every exit path of the registration-and-wait tail of the worker
returns the sentinel address. -/
theorem afterProbe_ret (env : WEnv) (tidW : Option Nat) (pg ps : Bool) (fs : List String) :
    (afterProbe env tidW pg ps fs).ret = PtrVal.nowtAddr := by
  unfold afterProbe
  split_ifs <;> rfl

/-- The registration-and-wait tail of the worker is reached with the
registration control point marked on every branch. -/
theorem afterProbe_reached (env : WEnv) (tidW : Option Nat) (pg ps : Bool) (fs : List String) :
    (afterProbe env tidW pg ps fs).reachedRegistration = true := by
  unfold afterProbe
  split_ifs <;> rfl

/-- C9: the worker function stress_pthread_func returns the same
non-null sentinel value (the address of the static variable nowt) on
every exit path: normal completion, alternate-stack setup failure,
diagnostic-probe failure, spinlock failure and condition-wait failure
alike, so a join on a worker handle always receives the same result
regardless of how the worker failed. -/
theorem worker_returns_sentinel : ∀ env : WEnv,
    (stress_pthread_func env).ret = PtrVal.nowtAddr ∧ PtrVal.nowtAddr ≠ PtrVal.null := by
  intro env
  refine ⟨?_, by decide⟩
  unfold stress_pthread_func
  by_cases hs : env.sigaltstackOk
  · simp only [hs, Bool.not_true, Bool.false_eq_true, if_false]
    cases hg : env.getRobustErr with
    | some e =>
      by_cases he : e = ENOSYS <;> simp [he, afterProbe_ret]
    | none =>
      cases hset : env.setRobustErr with
      | some e => by_cases he : e = ENOSYS <;> simp [he, afterProbe_ret]
      | none => simp [afterProbe_ret]
  · simp [hs]

/-- Witness for worker_returns_sentinel at a concrete all-success
environment. -/
theorem worker_returns_sentinel_witness :
    (stress_pthread_func wEnvSent).ret = PtrVal.nowtAddr ∧ PtrVal.nowtAddr ≠ PtrVal.null :=
  worker_returns_sentinel wEnvSent

/-- C7: a worker whose alternate-signal-stack setup fails terminates at
once: it records no tid, never runs the robust-list probe, never
reaches the registration step, never increments the running count,
never enters the condition wait, emits no diagnostic, and still returns
the sentinel.  The run-failure flag ok is a local of stress_pthread
which no worker can write, as reflected by the engine embedding taking
no worker output at all. -/
theorem worker_altstack_failure (env : WEnv) (h : env.sigaltstackOk = false) :
    stress_pthread_func env =
      ⟨PtrVal.nowtAddr, none, false, false, false, false, false, []⟩ := by
  unfold stress_pthread_func
  simp [h]

/-- Witness for worker_altstack_failure at a concrete environment. -/
theorem worker_altstack_failure_witness :
    wEnvAlt.sigaltstackOk = false ∧
      stress_pthread_func wEnvAlt =
        ⟨PtrVal.nowtAddr, none, false, false, false, false, false, []⟩ :=
  ⟨rfl, worker_altstack_failure wEnvAlt rfl⟩

/-- C8: in the diagnostic probe, get_robust_list or set_robust_list
failing with ENOSYS is success-equivalent: the worker continues exactly
as if the call had succeeded, into the registration-and-wait tail
(whose registration control point is always reached); any other errno
from either call makes that worker terminate before registering: it
never increments the running count, never enters the wait, and returns
the sentinel. -/
theorem worker_robust_probe (env : WEnv) (h : env.sigaltstackOk = true) :
    (env.getRobustErr = some ENOSYS →
        stress_pthread_func env = afterProbe env (some env.tid) true false []) ∧
    (∀ e, env.getRobustErr = some e → e ≠ ENOSYS →
        stress_pthread_func env =
          ⟨PtrVal.nowtAddr, some env.tid, true, false, false, false, false,
            ["get_robust_list"]⟩) ∧
    (env.getRobustErr = none → env.setRobustErr = some ENOSYS →
        stress_pthread_func env = afterProbe env (some env.tid) true true []) ∧
    (∀ e, env.getRobustErr = none → env.setRobustErr = some e → e ≠ ENOSYS →
        stress_pthread_func env =
          ⟨PtrVal.nowtAddr, some env.tid, true, true, false, false, false,
            ["set_robust_list"]⟩) ∧
    (env.getRobustErr = none → env.setRobustErr = none →
        stress_pthread_func env = afterProbe env (some env.tid) true true []) ∧
    (∀ tidW pg ps fs, (afterProbe env tidW pg ps fs).reachedRegistration = true) := by
  refine ⟨?_, ?_, ?_, ?_, ?_, fun tidW pg ps fs => afterProbe_reached env tidW pg ps fs⟩
  · intro hg
    unfold stress_pthread_func
    simp [h, hg]
  · intro e hg he
    unfold stress_pthread_func
    simp [h, hg, he]
  · intro hg hs
    unfold stress_pthread_func
    simp [h, hg, hs]
  · intro e hg hs he
    unfold stress_pthread_func
    simp [h, hg, hs, he]
  · intro hg hs
    unfold stress_pthread_func
    simp [h, hg, hs]

/-- Witness for worker_robust_probe at a concrete environment where
get_robust_list reports ENOSYS. -/
theorem worker_robust_probe_witness :
    wEnvProbe.sigaltstackOk = true ∧
      stress_pthread_func wEnvProbe = afterProbe wEnvProbe (some wEnvProbe.tid) true false [] :=
  ⟨rfl, (worker_robust_probe wEnvProbe rfl).1 rfl⟩

/-- C1, failing input: with pthread-max 2 and the harness stop flag
observed cleared right after the first successful create, the iteration
creates one thread but the reap joins zero handles, because the break
fires before the loop variable is incremented and the join loop is
bounded by the loop variable: the created handle is leaked. -/
theorem stop_flag_leaks_handle :
    (engineIter envLeak 0 st0).2.created = 1 ∧
      (engineIter envLeak 0 st0).2.joined = 0 ∧
      cCount (engineIter envLeak 0 st0).2.trace = 1 ∧
      jCount (engineIter envLeak 0 st0).2.trace = 0 := by
  decide

/-- C2, counterexample: a run in which pthread_create fails with an
unexpected synchronization-class errno (22) logs the diagnostic and
clears ok, yet stress_pthread still returns EXIT_SUCCESS, contradicting
the claim that any unexpected synchronization-class error yields a
non-zero exit status. -/
theorem sync_error_exit_counterexample :
    Ev.prFail "pthread create" ∈ (stress_pthread envFatal 5).trace ∧
      (stress_pthread envFatal 5).st.ok = false ∧
      (stress_pthread envFatal 5).exitCode = EXIT_SUCCESS := by
  decide

/-- C2 amended: an unexpected synchronization-class error during the
run clears ok, which stops the do-while loop after the failing
iteration completes its reap, but the exit status of stress_pthread is
EXIT_SUCCESS whenever initialization succeeded; only an initialization
failure (signal handler, cond, spinlock or mutex init) produces
EXIT_FAILURE, and the resource-exhaustion summary never affects the
status. -/
theorem sync_error_stops_loop_exit_success (env : EEnv) (fuel : Nat) :
    ((stress_pthread env fuel).exitCode =
        if initFails env then EXIT_FAILURE else EXIT_SUCCESS) ∧
    (∀ f it st, (engineIter env it st).1.ok = false →
        engineLoop env (f+1) it st = engineLoop env 0 it st) := by
  constructor
  · unfold stress_pthread
    split <;> rfl
  · intro f it st h
    simp [engineLoop, h]

/-- Witness for sync_error_stops_loop_exit_success at the concrete
environment with the unexpected create error. -/
theorem sync_error_stops_loop_witness :
    ((stress_pthread envFatal 5).exitCode =
        if initFails envFatal then EXIT_FAILURE else EXIT_SUCCESS) ∧
      engineLoop envFatal 1 0 st0 = engineLoop envFatal 0 0 st0 :=
  ⟨(sync_error_stops_loop_exit_success envFatal 5).1,
   (sync_error_stops_loop_exit_success envFatal 5).2 0 0 st0 (by decide)⟩

/-- If the poll-phase mutex operations all succeed, the bounded barrier
poll leaves ok unchanged, proceeds to the broadcaster and emits
nothing, whatever counts are observed. -/
theorem pollAux_allOk (pl pu co : Nat → Nat) (n : Nat)
    (hpl : ∀ j, pl j = 0) (hpu : ∀ j, pu j = 0) :
    ∀ fuel j ok, pollAux pl pu co n fuel j ok = (ok, true, []) := by
  intro fuel
  induction fuel with
  | zero => intro j ok; rfl
  | succ f ih =>
    intro j ok
    rw [pollAux]
    simp only [hpl j, hpu j, ne_eq, not_true_eq_false, if_false]
    split
    · rfl
    · exact ih (j+1) ok

/-- If every join succeeds, the reap leaves ok unchanged. -/
theorem reapAux_ok (jr : Nat → Nat) (hjr : ∀ j, jr j = 0) :
    ∀ n j ok, (reapAux jr n j ok).1 = ok := by
  intro n
  induction n with
  | zero => intro j ok; rfl
  | succ m ih =>
    intro j ok
    rw [reapAux]
    simp [hjr j, ih]

/-- The reap phase always performs exactly one join per handle index
below its bound, whatever the join results are. -/
theorem reapAux_jCount (jr : Nat → Nat) :
    ∀ n j ok, jCount (reapAux jr n j ok).2 = n := by
  intro n
  induction n with
  | zero => intro j ok; rfl
  | succ m ih =>
    intro j ok
    rw [reapAux]
    simp only [jCount, List.countP_append, List.countP_cons] at ih ⊢
    split <;> simp [isJoin, ih, Nat.add_comm]

/-- With a successful lock, broadcast and unlock, the broadcaster
leaves ok unchanged, sets the flag, and emits exactly the lock, the
signals, the flag write under the mutex, the broadcast and the
unlock. -/
theorem broadcastPhase_allOk (tid : Nat → Nat) (n : Nat) (ok : Bool) :
    broadcastPhase 0 0 0 tid n ok =
      (ok, true,
        Ev.mlock ::
          ((List.range n).filterMap fun j =>
            if tid j ≠ 0 then some (Ev.signal (tid j)) else none) ++
          [Ev.flagWrite true true, Ev.bcast, Ev.munlock]) := by
  simp [broadcastPhase]

/-- C4: when the broadcaster's mutex acquisition succeeds, it executes
as the single critical section lock, then one directed signal per
worker slot with a non-zero recorded tid, then the write of true to the
termination flag performed under the mutex, then the condition
broadcast, then the unlock; the flag component of the result is true,
so the flag is already true when the broadcaster completes, and a
worker whose wait loop then observes the flag performs no further
condition wait. -/
theorem broadcaster_critical_section (bl br bu : Nat) (tid : Nat → Nat) (n : Nat) (ok : Bool)
    (h : bl = 0) :
    broadcastPhase bl br bu tid n ok =
      (ok && (br == 0) && (bu == 0), true,
        Ev.mlock ::
          ((List.range n).filterMap fun j =>
            if tid j ≠ 0 then some (Ev.signal (tid j)) else none) ++
          [Ev.flagWrite true true, Ev.bcast] ++
          (if br = 0 then [] else [Ev.prFail "pthread condition broadcast"]) ++
          [Ev.munlock] ++
          (if bu = 0 then [] else [Ev.prFail "mutex unlock"])) ∧
    (∀ w : Nat → Nat, ∀ k, condWaitLoop w 0 k = none) := by
  subst h
  exact ⟨by simp [broadcastPhase], fun w k => rfl⟩

/-- Witness for broadcaster_critical_section with two worker slots
whose tids are recorded. -/
theorem broadcaster_critical_section_witness :
    broadcastPhase 0 0 0 (fun j => j + 5) 2 true =
      (true, true,
        [Ev.mlock, Ev.signal 5, Ev.signal 6, Ev.flagWrite true true, Ev.bcast,
          Ev.munlock]) :=
  ((broadcaster_critical_section 0 0 0 (fun j => j + 5) 2 true rfl).1).trans (by decide)

/-- Characterization of the spawn loop when pthread_create succeeds on
the first m attempts (with the stop flag observed set each time and the
op budget open) and fails with EAGAIN on attempt m+1: the loop stops
with loop variable, created count and op counter advanced by exactly m,
exit reason eagain, and one create event per successful attempt. -/
theorem spawnLoopAux_eagain (env : EEnv) (it : Nat) :
    ∀ m fuel i c, m < fuel →
      (∀ t, t < m → env.createRet it (i + t) = 0) →
      env.createRet it (i + m) = EAGAIN →
      (∀ t, t < m → env.keepFlag it (i + t) = true) →
      (∀ t, t ≤ m → env.max_ops = 0 ∨ c + t < env.max_ops) →
      spawnLoopAux env it fuel i c =
        ⟨i + m, i + m, c + m, SpawnExit.eagain,
          (List.range m).map fun t => Ev.create (i + t)⟩ := by
  intro m
  induction m with
  | zero =>
    intro fuel i c hm h0 he hk hb
    cases fuel with
    | zero => omega
    | succ f =>
      have hbudget : ¬(env.max_ops ≠ 0 ∧ env.max_ops ≤ c) := by
        rcases hb 0 (Nat.zero_le _) with h | h
        · exact fun hc => hc.1 h
        · exact fun hc => absurd hc.2 (by omega)
      have he0 : env.createRet it i = EAGAIN := by simpa using he
      rw [spawnLoopAux, if_neg hbudget, he0]
      simp [EAGAIN]
  | succ m ih =>
    intro fuel i c hm h0 he hk hb
    cases fuel with
    | zero => omega
    | succ f =>
      have hbudget : ¬(env.max_ops ≠ 0 ∧ env.max_ops ≤ c) := by
        rcases hb 0 (Nat.zero_le _) with h | h
        · exact fun hc => hc.1 h
        · exact fun hc => absurd hc.2 (by omega)
      have hc0 : env.createRet it i = 0 := by simpa using h0 0 (Nat.succ_pos m)
      have hk0 : env.keepFlag it i = true := by simpa using hk 0 (Nat.succ_pos m)
      have hrest := ih f (i+1) (c+1) (by omega)
        (fun t ht => by
          have := h0 (t+1) (by omega)
          simpa [Nat.add_assoc, Nat.add_comm 1 t] using this)
        (by
          have := he
          simpa [Nat.add_assoc, Nat.add_comm 1 m] using this)
        (fun t ht => by
          have := hk (t+1) (by omega)
          simpa [Nat.add_assoc, Nat.add_comm 1 t] using this)
        (fun t ht => by
          have := hb (t+1) (by omega)
          rcases this with h | h
          · exact Or.inl h
          · exact Or.inr (by omega))
      rw [spawnLoopAux, if_neg hbudget, hc0]
      simp only [if_pos rfl, hk0, if_true, hrest]
      simp only [SpawnRes.mk.injEq]
      refine ⟨by omega, by omega, by omega, trivial, ?_⟩
      rw [List.range_succ_eq_map, List.map_cons, List.map_map]
      refine congrArg₂ List.cons (by simp) ?_
      refine List.map_congr_left fun t ht => ?_
      simp only [Function.comp_apply]
      exact congrArg Ev.create (by omega)

/-- If every mutex operation of the poll, the broadcaster calls and the
joins succeed, the phases after the spawn loop leave ok unchanged and
set the termination flag. -/
theorem postPhase_allOk (pl pu co : Nat → Nat) (tid jr : Nat → Nat) (n : Nat) (ok : Bool)
    (hpl : ∀ j, pl j = 0) (hpu : ∀ j, pu j = 0) (hjr : ∀ j, jr j = 0) :
    (postPhase pl pu co 0 0 0 tid jr n ok).1 = ok ∧
      (postPhase pl pu co 0 0 0 tid jr n ok).2.1 = true := by
  simp only [postPhase, pollAux_allOk pl pu co n hpl hpu, broadcastPhase_allOk]
  simp [reapAux_ok jr hjr]

/-- C3: if pthread_create fails with EAGAIN on attempt k of an
iteration (1 <= k <= pthread-max) after k-1 successful creates, then
exactly k-1 threads were spawned, the iteration is counted in limited,
the spawn loop stops with exit reason eagain, the reap joins exactly
k-1 handles, the run-failure flag is unchanged (here under the
assumption that the iteration's own synchronization calls succeed), and
attempted grows by one. -/
theorem eagain_limits_iteration (env : EEnv) (it k : Nat) (st : IterSt)
    (hk1 : 1 ≤ k) (hkN : k ≤ env.pthread_max)
    (hcr : ∀ t, t < k - 1 → env.createRet it t = 0)
    (he : env.createRet it (k - 1) = EAGAIN)
    (hkeep : ∀ t, t < k - 1 → env.keepFlag it t = true)
    (hb : ∀ t, t ≤ k - 1 → env.max_ops = 0 ∨ st.counter + t < env.max_ops)
    (hpl : ∀ j, env.pollLockRet it j = 0) (hpu : ∀ j, env.pollUnlockRet it j = 0)
    (hbl : env.bcastLockRet it = 0) (hbr : env.bcastRet it = 0)
    (hbu : env.bcastUnlockRet it = 0) (hjr : ∀ j, env.joinRet it j = 0) :
    (engineIter env it st).2.created = k - 1 ∧
      (engineIter env it st).2.joined = k - 1 ∧
      (engineIter env it st).2.exit = SpawnExit.eagain ∧
      (engineIter env it st).1.limited = st.limited + 1 ∧
      (engineIter env it st).1.ok = st.ok ∧
      (engineIter env it st).1.attempted = st.attempted + 1 := by
  have hsp := spawnLoopAux_eagain env it (k-1) env.pthread_max 0 st.counter (by omega)
    (fun t ht => by simpa using hcr t ht)
    (by simpa using he)
    (fun t ht => by simpa using hkeep t ht)
    hb
  have hpost := postPhase_allOk (env.pollLockRet it) (env.pollUnlockRet it)
    (env.pollCountObs it) (env.tids it) (env.joinRet it) (k-1)
    (st.ok && !(SpawnExit.eagain == SpawnExit.fatal)) hpl hpu hjr
  have hok : (st.ok && !(SpawnExit.eagain == SpawnExit.fatal)) = st.ok := by
    cases st.ok <;> rfl
  rw [hok] at hpost
  simp only [engineIter, hsp, hbl, hbr, hbu, Nat.zero_add]
  refine ⟨by trivial, by trivial, by trivial, by simp, ?_, by trivial⟩
  simpa [hok] using hpost.1

/-- Witness for eagain_limits_iteration at the concrete environment
envEag with k = 2. -/
theorem eagain_limits_iteration_witness :
    (engineIter envEag 0 st0).2.created = 1 ∧
      (engineIter envEag 0 st0).2.joined = 1 ∧
      (engineIter envEag 0 st0).2.exit = SpawnExit.eagain ∧
      (engineIter envEag 0 st0).1.limited = st0.limited + 1 ∧
      (engineIter envEag 0 st0).1.ok = st0.ok ∧
      (engineIter envEag 0 st0).1.attempted = st0.attempted + 1 := by
  have h := eagain_limits_iteration envEag 0 2 st0 (by decide) (by decide)
    (fun t ht => by
      have ht0 : t = 0 := by omega
      subst ht0; rfl)
    rfl
    (fun t ht => rfl)
    (fun t ht => Or.inl rfl)
    (fun j => rfl) (fun j => rfl) rfl rfl rfl (fun j => rfl)
  simpa using h

/-- A list none of whose elements satisfies p has countP p zero. -/
theorem countP_zero_of (p : Ev → Bool) (l : List Ev) (h : ∀ e ∈ l, p e = false) :
    l.countP p = 0 := by
  rw [List.countP_eq_zero]
  intro a ha
  simp [h a ha]

/-- Every event of the spawn loop trace is a create or the create
failure diagnostic. -/
theorem spawnLoopAux_mem (env : EEnv) (it : Nat) :
    ∀ fuel i c e, e ∈ (spawnLoopAux env it fuel i c).trace →
      (∃ idx, e = Ev.create idx) ∨ e = Ev.prFail "pthread create" := by
  intro fuel
  induction fuel with
  | zero => intro i c e he; simp [spawnLoopAux] at he
  | succ f ih =>
    intro i c e he
    rw [spawnLoopAux] at he
    split at he
    · simp at he
    · split at he
      · split at he
        · simp only [List.mem_cons] at he
          rcases he with he | he
          · exact Or.inl ⟨i, he⟩
          · exact ih _ _ e he
        · simp only [List.mem_singleton] at he
          exact Or.inl ⟨i, he⟩
      · split at he
        · simp at he
        · simp only [List.mem_singleton] at he
          exact Or.inr he

/-- Every event of the poll trace is one of the two mutex failure
diagnostics. -/
theorem pollAux_mem (pl pu co : Nat → Nat) (n : Nat) :
    ∀ fuel j ok e, e ∈ (pollAux pl pu co n fuel j ok).2.2 →
      e = Ev.prFail "mutex lock" ∨ e = Ev.prFail "mutex unlock" := by
  intro fuel
  induction fuel with
  | zero => intro j ok e he; simp [pollAux] at he
  | succ f ih =>
    intro j ok e he
    rw [pollAux] at he
    split at he
    · simp only [List.mem_singleton] at he
      exact Or.inl he
    · split at he
      · simp only [List.mem_singleton] at he
        exact Or.inr he
      · split at he
        · simp at he
        · exact ih _ _ e he

/-- Every event of the reap trace is a join or the join failure
diagnostic. -/
theorem reapAux_mem (jr : Nat → Nat) :
    ∀ n j ok e, e ∈ (reapAux jr n j ok).2 →
      (∃ idx, e = Ev.join idx) ∨ e = Ev.prFail "pthread join" := by
  intro n
  induction n with
  | zero => intro j ok e he; simp [reapAux] at he
  | succ m ih =>
    intro j ok e he
    rw [reapAux] at he
    simp only [List.cons_append, List.mem_cons, List.mem_append] at he
    rcases he with he | he
    · exact Or.inl ⟨j, he⟩
    rcases he with he | he
    · split at he
      · simp at he
      · simp only [List.mem_singleton] at he
        exact Or.inr he
    · exact ih _ _ e he

/-- Every event of the broadcaster trace is benign for the balance and
count bookkeeping: not a create, not a join, and any termination-flag
write in it writes true under the mutex. -/
theorem broadcastPhase_mem (bl br bu : Nat) (tid : Nat → Nat) (n : Nat) (ok : Bool) :
    ∀ e ∈ (broadcastPhase bl br bu tid n ok).2.2,
      isCreate e = false ∧ isJoin e = false ∧
        ∀ v u : Bool, e = Ev.flagWrite v u → v = true ∧ u = true := by
  intro e he
  unfold broadcastPhase at he
  split at he
  · simp only [List.mem_singleton] at he
    subst he
    exact ⟨rfl, rfl, fun v u h => Ev.noConfusion h⟩
  · rcases List.mem_cons.mp he with rfl | he
    · exact ⟨rfl, rfl, fun v u h => Ev.noConfusion h⟩
    rcases List.mem_append.mp he with he | he
    rotate_left
    · split at he
      · simp at he
      · simp only [List.mem_singleton] at he
        subst he
        exact ⟨rfl, rfl, fun v u h => Ev.noConfusion h⟩
    rcases List.mem_append.mp he with he | he
    rotate_left
    · simp only [List.mem_singleton] at he
      subst he
      exact ⟨rfl, rfl, fun v u h => Ev.noConfusion h⟩
    rcases List.mem_append.mp he with he | he
    rotate_left
    · split at he
      · simp at he
      · simp only [List.mem_singleton] at he
        subst he
        exact ⟨rfl, rfl, fun v u h => Ev.noConfusion h⟩
    rcases List.mem_append.mp he with he | he
    · rcases List.mem_filterMap.mp he with ⟨j, hj, hsome⟩
      split at hsome
      · injection hsome with h2
        subst h2
        exact ⟨rfl, rfl, fun v u h => Ev.noConfusion h⟩
      · exact Option.noConfusion hsome
    · simp only [List.mem_cons, List.not_mem_nil, or_false] at he
      rcases he with rfl | rfl
      · refine ⟨rfl, rfl, fun v u h => ?_⟩
        injection h with h1 h2
        exact ⟨h1.symm, h2.symm⟩
      · exact ⟨rfl, rfl, fun v u h => Ev.noConfusion h⟩

/-- Any termination-flag write in the post-spawn phases writes true
under the mutex. -/
theorem postPhase_fw (pl pu co : Nat → Nat) (bl br bu : Nat) (tid jr : Nat → Nat)
    (n : Nat) (ok : Bool) (v u : Bool)
    (h : Ev.flagWrite v u ∈ (postPhase pl pu co bl br bu tid jr n ok).2.2) :
    v = true ∧ u = true := by
  unfold postPhase at h
  split at h
  · rcases List.mem_append.mp h with h | h
    · rcases List.mem_append.mp h with h | h
      · rcases pollAux_mem pl pu co n 1000 0 ok _ h with h2 | h2 <;> exact Ev.noConfusion h2
      · exact (broadcastPhase_mem bl br bu tid n _ _ h).2.2 v u rfl
    · rcases reapAux_mem jr n 0 _ _ h with ⟨idx, h2⟩ | h2 <;> exact Ev.noConfusion h2
  · rcases List.mem_append.mp h with h | h
    · rcases pollAux_mem pl pu co n 1000 0 ok _ h with h2 | h2 <;> exact Ev.noConfusion h2
    · rcases reapAux_mem jr n 0 _ _ h with ⟨idx, h2⟩ | h2 <;> exact Ev.noConfusion h2

/-- The post-spawn phases create nothing. -/
theorem postPhase_cCount (pl pu co : Nat → Nat) (bl br bu : Nat) (tid jr : Nat → Nat)
    (n : Nat) (ok : Bool) :
    cCount (postPhase pl pu co bl br bu tid jr n ok).2.2 = 0 := by
  refine countP_zero_of _ _ fun e he => ?_
  unfold postPhase at he
  split at he
  · rcases List.mem_append.mp he with he | he
    · rcases List.mem_append.mp he with he | he
      · rcases pollAux_mem pl pu co n 1000 0 ok _ he with h2 | h2 <;> (subst h2; rfl)
      · exact (broadcastPhase_mem bl br bu tid n _ _ he).1
    · rcases reapAux_mem jr n 0 _ _ he with ⟨idx, h2⟩ | h2 <;> (subst h2; rfl)
  · rcases List.mem_append.mp he with he | he
    · rcases pollAux_mem pl pu co n 1000 0 ok _ he with h2 | h2 <;> (subst h2; rfl)
    · rcases reapAux_mem jr n 0 _ _ he with ⟨idx, h2⟩ | h2 <;> (subst h2; rfl)

/-- Event counts distribute over trace concatenation. -/
theorem jCount_append (l1 l2 : List Ev) : jCount (l1 ++ l2) = jCount l1 + jCount l2 :=
  List.countP_append _ _ _

/-- Create counts distribute over trace concatenation. -/
theorem cCount_append (l1 l2 : List Ev) : cCount (l1 ++ l2) = cCount l1 + cCount l2 :=
  List.countP_append _ _ _

/-- The post-spawn phases join exactly one handle per index below the
spawn loop variable, whatever the environment does. -/
theorem postPhase_jCount (pl pu co : Nat → Nat) (bl br bu : Nat) (tid jr : Nat → Nat)
    (n : Nat) (ok : Bool) :
    jCount (postPhase pl pu co bl br bu tid jr n ok).2.2 = n := by
  have hpoll : jCount (pollAux pl pu co n 1000 0 ok).2.2 = 0 := by
    refine countP_zero_of _ _ fun e he => ?_
    rcases pollAux_mem pl pu co n 1000 0 ok _ he with h2 | h2 <;> (subst h2; rfl)
  have hbc : ∀ b : Bool, jCount (broadcastPhase bl br bu tid n b).2.2 = 0 := by
    intro b
    refine countP_zero_of _ _ fun e he => ?_
    exact (broadcastPhase_mem bl br bu tid n b e he).2.1
  unfold postPhase
  split
  · rw [jCount_append, jCount_append, hpoll, hbc, reapAux_jCount]
    omega
  · rw [jCount_append, hpoll, reapAux_jCount]
    omega

/-- The create events of the spawn loop trace are exactly the creates
counted between the initial index and the final created count. -/
theorem spawnLoopAux_cCount (env : EEnv) (it : Nat) :
    ∀ fuel i c, cCount (spawnLoopAux env it fuel i c).trace + i =
      (spawnLoopAux env it fuel i c).created := by
  intro fuel
  induction fuel with
  | zero => intro i c; simp [spawnLoopAux, cCount]
  | succ f ih =>
    intro i c
    rw [spawnLoopAux]
    split
    · simp [cCount]
    · split
      · split
        · have h1 := ih (i+1) (c+1)
          simp only [cCount, List.countP_cons, isCreate] at h1 ⊢
          simp only [if_true]
          omega
        · simp [cCount, List.countP_cons, isCreate]
          omega
      · split
        · simp [cCount]
        · simp [cCount, List.countP_cons, isCreate]

/-- Exit-reason characterization of the spawn loop: a stop-flag exit
means the created count exceeds the final loop variable by one and the
stop flag was observed cleared right after the last create; any other
exit means the created count equals the final loop variable. -/
theorem spawnLoopAux_exit_created (env : EEnv) (it : Nat) :
    ∀ fuel i c,
      ((spawnLoopAux env it fuel i c).exit = SpawnExit.stopFlag →
        (spawnLoopAux env it fuel i c).created = (spawnLoopAux env it fuel i c).iFinal + 1 ∧
          env.keepFlag it (spawnLoopAux env it fuel i c).iFinal = false) ∧
      ((spawnLoopAux env it fuel i c).exit ≠ SpawnExit.stopFlag →
        (spawnLoopAux env it fuel i c).created = (spawnLoopAux env it fuel i c).iFinal) := by
  intro fuel
  induction fuel with
  | zero =>
    intro i c
    exact ⟨fun h => by simp [spawnLoopAux] at h, fun h => rfl⟩
  | succ f ih =>
    intro i c
    rw [spawnLoopAux]
    split
    · exact ⟨fun h => by simp at h, fun h => rfl⟩
    · split
      · split
        · exact ih (i+1) (c+1)
        · refine ⟨fun h => ⟨rfl, ?_⟩, fun h => absurd rfl h⟩
          rename_i hflag
          simpa using hflag
      · split
        · exact ⟨fun h => by simp at h, fun h => rfl⟩
        · exact ⟨fun h => by simp at h, fun h => rfl⟩

/-- No thread is created by the spawn loop after the harness stop flag
has been observed cleared: every stop-flag observation made strictly
before the last created thread saw the flag still set. -/
theorem spawnLoopAux_keepFlag (env : EEnv) (it : Nat) :
    ∀ fuel i c idx, i ≤ idx → idx + 1 < (spawnLoopAux env it fuel i c).created →
      env.keepFlag it idx = true := by
  intro fuel
  induction fuel with
  | zero =>
    intro i c idx hle hlt
    simp [spawnLoopAux] at hlt
    omega
  | succ f ih =>
    intro i c idx hle hlt
    rw [spawnLoopAux] at hlt
    split at hlt
    · simp at hlt; omega
    · split at hlt
      · split at hlt
        · rcases Nat.lt_or_ge i idx with hi | hi
          · exact ih (i+1) (c+1) idx hi hlt
          · have hidx : idx = i := by omega
            subst hidx
            rename_i hflag
            exact hflag
        · simp at hlt
          omega
      · split at hlt
        · simp at hlt; omega
        · simp at hlt; omega

/-- C6: the harness stop flag is consulted only inside the spawn loop:
first, no thread is created in an iteration after the flag has been
observed cleared (every observation strictly before the last create saw
it set); second, the phases past the spawn loop (barrier poll,
broadcaster, reap) are a function of the poll, broadcast, tid and join
outcomes alone, so two environments agreeing on those but differing
arbitrarily in their stop-flag observations run identical post phases;
third, the reap of the post phases always joins exactly one handle per
index below its bound, so an iteration past its spawn loop runs to
completion. -/
theorem stop_flag_spawn_loop_only (env : EEnv) (it : Nat) :
    (∀ fuel i c idx, i ≤ idx → idx + 1 < (spawnLoopAux env it fuel i c).created →
        env.keepFlag it idx = true) ∧
    (∀ env2 : EEnv,
        env.pollLockRet it = env2.pollLockRet it →
        env.pollUnlockRet it = env2.pollUnlockRet it →
        env.pollCountObs it = env2.pollCountObs it →
        env.bcastLockRet it = env2.bcastLockRet it →
        env.bcastRet it = env2.bcastRet it →
        env.bcastUnlockRet it = env2.bcastUnlockRet it →
        env.tids it = env2.tids it →
        env.joinRet it = env2.joinRet it →
        ∀ n ok,
          postPhase (env.pollLockRet it) (env.pollUnlockRet it) (env.pollCountObs it)
              (env.bcastLockRet it) (env.bcastRet it) (env.bcastUnlockRet it)
              (env.tids it) (env.joinRet it) n ok =
            postPhase (env2.pollLockRet it) (env2.pollUnlockRet it) (env2.pollCountObs it)
              (env2.bcastLockRet it) (env2.bcastRet it) (env2.bcastUnlockRet it)
              (env2.tids it) (env2.joinRet it) n ok) ∧
    (∀ (pl pu co : Nat → Nat) (bl br bu : Nat) (tid jr : Nat → Nat) (n : Nat) (ok : Bool),
        jCount (postPhase pl pu co bl br bu tid jr n ok).2.2 = n) := by
  refine ⟨spawnLoopAux_keepFlag env it, ?_, postPhase_jCount⟩
  intro env2 h1 h2 h3 h4 h5 h6 h7 h8 n ok
  rw [h1, h2, h3, h4, h5, h6, h7, h8]

/-- Witness for stop_flag_spawn_loop_only: in a concrete run with three
successful creates, the stop-flag observation after the second create
was true. -/
theorem stop_flag_spawn_loop_only_witness :
    (0:Nat) ≤ 1 ∧ 1 + 1 < (spawnLoopAux envC6 0 3 0 0).created ∧
      envC6.keepFlag 0 1 = true :=
  ⟨by decide, by decide,
   (stop_flag_spawn_loop_only envC6 0).1 3 0 0 1 (by decide) (by decide)⟩

/-- Trace shape of one iteration: the unprotected reset of the
termination flag to false, then the spawn trace, then the post-phase
trace. -/
theorem engineIter_trace (env : EEnv) (it : Nat) (st : IterSt) :
    (engineIter env it st).2.trace =
      Ev.flagWrite false false ::
        ((spawnLoopAux env it env.pthread_max 0 st.counter).trace ++
          (postPhase (env.pollLockRet it) (env.pollUnlockRet it) (env.pollCountObs it)
            (env.bcastLockRet it) (env.bcastRet it) (env.bcastUnlockRet it)
            (env.tids it) (env.joinRet it)
            (spawnLoopAux env it env.pthread_max 0 st.counter).iFinal
            (st.ok && !((spawnLoopAux env it env.pthread_max 0 st.counter).exit ==
              SpawnExit.fatal))).2.2) := rfl

/-- The created count reported by an iteration is the spawn loop's. -/
theorem engineIter_created (env : EEnv) (it : Nat) (st : IterSt) :
    (engineIter env it st).2.created =
      (spawnLoopAux env it env.pthread_max 0 st.counter).created := rfl

/-- The join bound of an iteration is the spawn loop's final loop
variable. -/
theorem engineIter_iFinal (env : EEnv) (it : Nat) (st : IterSt) :
    (engineIter env it st).2.iFinal =
      (spawnLoopAux env it env.pthread_max 0 st.counter).iFinal := rfl

/-- The exit reason reported by an iteration is the spawn loop's. -/
theorem engineIter_exit (env : EEnv) (it : Nat) (st : IterSt) :
    (engineIter env it st).2.exit =
      (spawnLoopAux env it env.pthread_max 0 st.counter).exit := rfl

/-- Any write of true to the termination flag in an iteration trace is
performed under the mutex. -/
theorem engineIter_flagTrue (env : EEnv) (it : Nat) (st : IterSt) (u : Bool)
    (h : Ev.flagWrite true u ∈ (engineIter env it st).2.trace) : u = true := by
  rw [engineIter_trace] at h
  rcases List.mem_cons.mp h with h | h
  · simp at h
  · rcases List.mem_append.mp h with h | h
    · rcases spawnLoopAux_mem env it _ _ _ _ h with ⟨idx, h2⟩ | h2 <;> exact Ev.noConfusion h2
    · exact (postPhase_fw _ _ _ _ _ _ _ _ _ _ true u h).2

/-- A flag write contributes to neither the create count nor the join
count. -/
theorem cCount_cons_fw (v u : Bool) (l : List Ev) :
    cCount (Ev.flagWrite v u :: l) = cCount l := by
  simp [cCount, List.countP_cons, isCreate]

/-- A flag write contributes nothing to the join count. -/
theorem jCount_cons_fw (v u : Bool) (l : List Ev) :
    jCount (Ev.flagWrite v u :: l) = jCount l := by
  simp [jCount, List.countP_cons, isJoin]

/-- The spawn loop performs no join. -/
theorem spawnLoopAux_jCount (env : EEnv) (it : Nat) (fuel i c : Nat) :
    jCount (spawnLoopAux env it fuel i c).trace = 0 :=
  countP_zero_of _ _ fun e he => by
    rcases spawnLoopAux_mem env it fuel i c e he with ⟨idx, h2⟩ | h2 <;> (subst h2; rfl)

/-- Iteration traces create as many threads as the spawn loop reports
created and join as many handles as the final spawn loop variable. -/
theorem engineIter_counts (env : EEnv) (it : Nat) (st : IterSt) :
    cCount (engineIter env it st).2.trace = (engineIter env it st).2.created ∧
      jCount (engineIter env it st).2.trace = (engineIter env it st).2.iFinal := by
  rw [engineIter_trace, engineIter_created, engineIter_iFinal]
  constructor
  · rw [cCount_cons_fw, cCount_append, postPhase_cCount]
    have h1 := spawnLoopAux_cCount env it env.pthread_max 0 st.counter
    omega
  · rw [jCount_cons_fw, jCount_append, postPhase_jCount, spawnLoopAux_jCount]
    omega

/-- Every transition recorded by flagTransitions comes from a flag
write present in the trace. -/
theorem flagTransitions_mem : ∀ (l : List Ev) (f v u : Bool),
    (v, u) ∈ flagTransitions f l → Ev.flagWrite v u ∈ l := by
  intro l
  induction l with
  | nil => intro f v u h; simp [flagTransitions] at h
  | cons x xs ih =>
    intro f v u h
    cases x with
    | flagWrite w m =>
      rw [flagTransitions] at h
      split at h
      · exact List.mem_cons_of_mem _ (ih f v u h)
      · rcases List.mem_cons.mp h with h | h
        · injection h with h1 h2
          subst h1; subst h2
          exact List.mem_cons_self _ _
        · exact List.mem_cons_of_mem _ (ih w v u h)
    | create idx => exact List.mem_cons_of_mem _ (ih f v u h)
    | join idx => exact List.mem_cons_of_mem _ (ih f v u h)
    | mlock => exact List.mem_cons_of_mem _ (ih f v u h)
    | signal t => exact List.mem_cons_of_mem _ (ih f v u h)
    | bcast => exact List.mem_cons_of_mem _ (ih f v u h)
    | munlock => exact List.mem_cons_of_mem _ (ih f v u h)
    | prFail s => exact List.mem_cons_of_mem _ (ih f v u h)

/-- A trace whose flag writes all write true produces no transition
when the flag is already true. -/
theorem flagTransitions_true_of_all_true : ∀ l : List Ev,
    (∀ v u : Bool, Ev.flagWrite v u ∈ l → v = true) → flagTransitions true l = [] := by
  intro l
  induction l with
  | nil => intro h; rfl
  | cons x xs ih =>
    intro h
    have hxs : ∀ v u : Bool, Ev.flagWrite v u ∈ xs → v = true :=
      fun v u hm => h v u (List.mem_cons_of_mem _ hm)
    cases x with
    | flagWrite w m =>
      have hw : w = true := h w m (List.mem_cons_self _ _)
      subst hw
      rw [flagTransitions, if_pos rfl]
      exact ih hxs
    | create idx => exact ih hxs
    | join idx => exact ih hxs
    | mlock => exact ih hxs
    | signal t => exact ih hxs
    | bcast => exact ih hxs
    | munlock => exact ih hxs
    | prFail s => exact ih hxs

/-- A trace whose flag writes are all true-under-mutex writes has, from
a false starting flag, either no transition or exactly the single
transition to true under the mutex. -/
theorem flagTransitions_false_shape : ∀ l : List Ev,
    (∀ v u : Bool, Ev.flagWrite v u ∈ l → v = true ∧ u = true) →
    flagTransitions false l = [] ∨ flagTransitions false l = [(true, true)] := by
  intro l
  induction l with
  | nil => intro h; exact Or.inl rfl
  | cons x xs ih =>
    intro h
    have hxs : ∀ v u : Bool, Ev.flagWrite v u ∈ xs → v = true ∧ u = true :=
      fun v u hm => h v u (List.mem_cons_of_mem _ hm)
    cases x with
    | flagWrite w m =>
      obtain ⟨hw, hm⟩ := h w m (List.mem_cons_self _ _)
      subst hw; subst hm
      rw [flagTransitions, if_neg (by decide : ¬(true = false))]
      right
      rw [flagTransitions_true_of_all_true xs (fun v u hm2 => (hxs v u hm2).1)]
    | create idx => exact ih hxs
    | join idx => exact ih hxs
    | mlock => exact ih hxs
    | signal t => exact ih hxs
    | bcast => exact ih hxs
    | munlock => exact ih hxs
    | prFail s => exact ih hxs

/-- Create events count one create. -/
theorem cCount_cons_create (idx : Nat) (l : List Ev) :
    cCount (Ev.create idx :: l) = cCount l + 1 := by
  simp [cCount, List.countP_cons, isCreate]

/-- Join events count one join. -/
theorem jCount_cons_join (idx : Nat) (l : List Ev) :
    jCount (Ev.join idx :: l) = jCount l + 1 := by
  simp [jCount, List.countP_cons, isJoin]

/-- Events that are not creates leave the create count unchanged. -/
theorem cCount_cons_of_not (x : Ev) (l : List Ev) (h : isCreate x = false) :
    cCount (x :: l) = cCount l := by
  simp [cCount, List.countP_cons, h]

/-- Events that are not joins leave the join count unchanged. -/
theorem jCount_cons_of_not (x : Ev) (l : List Ev) (h : isJoin x = false) :
    jCount (x :: l) = jCount l := by
  simp [jCount, List.countP_cons, h]

/-- The balance check distributes over concatenation, shifting the
counts of the left part into the right part. -/
theorem balancedAt_append : ∀ (xs ys : List Ev) (c j : Nat),
    balancedAt c j (xs ++ ys) =
      (balancedAt c j xs && balancedAt (c + cCount xs) (j + jCount xs) ys) := by
  intro xs
  induction xs with
  | nil => intro ys c j; simp [balancedAt, cCount, jCount]
  | cons x xs ih =>
    intro ys c j
    cases x with
    | flagWrite v u =>
      rw [cCount_cons_of_not (Ev.flagWrite v u) _ rfl, jCount_cons_of_not (Ev.flagWrite v u) _ rfl]
      cases v with
      | false =>
        show (c == j && balancedAt c j (xs ++ ys)) =
          ((c == j && balancedAt c j xs) && balancedAt (c + cCount xs) (j + jCount xs) ys)
        rw [ih, Bool.and_assoc]
      | true =>
        show balancedAt c j (xs ++ ys) =
          (balancedAt c j xs && balancedAt (c + cCount xs) (j + jCount xs) ys)
        exact ih ys c j
    | create idx =>
      rw [cCount_cons_create, jCount_cons_of_not (Ev.create idx) _ rfl,
        show c + (cCount xs + 1) = (c + 1) + cCount xs from by omega]
      exact ih ys (c+1) j
    | join idx =>
      rw [cCount_cons_of_not (Ev.join idx) _ rfl, jCount_cons_join,
        show j + (jCount xs + 1) = (j + 1) + jCount xs from by omega]
      exact ih ys c (j+1)
    | mlock =>
      rw [cCount_cons_of_not Ev.mlock _ rfl, jCount_cons_of_not Ev.mlock _ rfl]
      exact ih ys c j
    | signal t =>
      rw [cCount_cons_of_not (Ev.signal t) _ rfl, jCount_cons_of_not (Ev.signal t) _ rfl]
      exact ih ys c j
    | bcast =>
      rw [cCount_cons_of_not Ev.bcast _ rfl, jCount_cons_of_not Ev.bcast _ rfl]
      exact ih ys c j
    | munlock =>
      rw [cCount_cons_of_not Ev.munlock _ rfl, jCount_cons_of_not Ev.munlock _ rfl]
      exact ih ys c j
    | prFail s =>
      rw [cCount_cons_of_not (Ev.prFail s) _ rfl, jCount_cons_of_not (Ev.prFail s) _ rfl]
      exact ih ys c j

/-- A trace with no false flag write passes the balance check from any
starting counts. -/
theorem balancedAt_of_no_false : ∀ l : List Ev, (∀ u, Ev.flagWrite false u ∉ l) →
    ∀ c j, balancedAt c j l = true := by
  intro l
  induction l with
  | nil => intro h c j; rfl
  | cons x xs ih =>
    intro h c j
    have hxs : ∀ u, Ev.flagWrite false u ∉ xs := fun u hu => h u (List.mem_cons_of_mem _ hu)
    cases x with
    | flagWrite v u =>
      cases v with
      | false => exact absurd (List.mem_cons_self _ _) (h u)
      | true => exact ih hxs c j
    | create idx => exact ih hxs (c+1) j
    | join idx => exact ih hxs c (j+1)
    | mlock => exact ih hxs c j
    | signal t => exact ih hxs c j
    | bcast => exact ih hxs c j
    | munlock => exact ih hxs c j
    | prFail s => exact ih hxs c j

/-- The body of an iteration trace (everything after the unprotected
reset) contains no false flag write. -/
theorem engineIter_body_no_false (env : EEnv) (it : Nat) (st : IterSt) :
    ∀ u, Ev.flagWrite false u ∉
      ((spawnLoopAux env it env.pthread_max 0 st.counter).trace ++
        (postPhase (env.pollLockRet it) (env.pollUnlockRet it) (env.pollCountObs it)
          (env.bcastLockRet it) (env.bcastRet it) (env.bcastUnlockRet it)
          (env.tids it) (env.joinRet it)
          (spawnLoopAux env it env.pthread_max 0 st.counter).iFinal
          (st.ok && !((spawnLoopAux env it env.pthread_max 0 st.counter).exit ==
            SpawnExit.fatal))).2.2) := by
  intro u hu
  rcases List.mem_append.mp hu with h | h
  · rcases spawnLoopAux_mem env it _ _ _ _ h with ⟨idx, h2⟩ | h2 <;> exact Ev.noConfusion h2
  · exact absurd (postPhase_fw _ _ _ _ _ _ _ _ _ _ false u h).1 (by decide)

/-- An iteration trace passes the balance check whenever the incoming
create and join counts agree: its head reset sees equal counts and its
body never resets the flag. -/
theorem engineIter_balanced (env : EEnv) (it : Nat) (st : IterSt) (c : Nat) :
    balancedAt c c (engineIter env it st).2.trace = true := by
  rw [engineIter_trace]
  rw [show ∀ l, balancedAt c c (Ev.flagWrite false false :: l) = (c == c && balancedAt c c l)
    from fun l => rfl]
  simp only [beq_self_eq_true, Bool.true_and]
  exact balancedAt_of_no_false _ (engineIter_body_no_false env it st) c c

/-- Any write of true to the termination flag anywhere in a run trace
is performed under the mutex. -/
theorem engineLoop_flagTrue (env : EEnv) : ∀ fuel it st u,
    Ev.flagWrite true u ∈ (engineLoop env fuel it st).2 → u = true := by
  intro fuel
  induction fuel with
  | zero => intro it st u h; exact engineIter_flagTrue env it st u h
  | succ f ih =>
    intro it st u h
    simp only [engineLoop] at h
    split at h
    · rcases List.mem_append.mp h with h | h
      · exact engineIter_flagTrue env it st u h
      · exact ih (it+1) _ u h
    · exact engineIter_flagTrue env it st u h

/-- Provided the stop flag is monotone (once observed cleared inside an
iteration's spawn loop it is still cleared at that iteration's
keep-stressing check), every run trace passes the balance check: at
every reset of the termination flag, every thread created so far has
been joined. -/
theorem engineLoop_balanced (env : EEnv)
    (hmono : ∀ it i, env.keepFlag it i = false → env.keepEnd it = false) :
    ∀ fuel it st c, balancedAt c c (engineLoop env fuel it st).2 = true := by
  intro fuel
  induction fuel with
  | zero => intro it st c; exact engineIter_balanced env it st c
  | succ f ih =>
    intro it st c
    simp only [engineLoop]
    split
    · rename_i hcond
      have hkeep : env.keepEnd it = true := by
        rw [Bool.and_eq_true] at hcond
        have h2 := hcond.2
        unfold keepStressingEnd at h2
        rw [Bool.and_eq_true] at h2
        exact h2.1
      have hexit : (spawnLoopAux env it env.pthread_max 0 st.counter).exit ≠
          SpawnExit.stopFlag := by
        intro hstop
        have hks := (spawnLoopAux_exit_created env it env.pthread_max 0 st.counter).1 hstop
        have hend := hmono it _ hks.2
        rw [hend] at hkeep
        exact Bool.noConfusion hkeep
      have hcj : (spawnLoopAux env it env.pthread_max 0 st.counter).created =
          (spawnLoopAux env it env.pthread_max 0 st.counter).iFinal :=
        (spawnLoopAux_exit_created env it env.pthread_max 0 st.counter).2 hexit
      show balancedAt c c ((engineIter env it st).2.trace ++
        (engineLoop env f (it+1) (engineIter env it st).1).2) = true
      rw [balancedAt_append]
      have hc := engineIter_counts env it st
      rw [hc.1, hc.2, engineIter_created, engineIter_iFinal, hcj]
      rw [engineIter_balanced env it st c]
      rw [ih (it+1) (engineIter env it st).1
        (c + (spawnLoopAux env it env.pthread_max 0 st.counter).iFinal)]
      rfl
    · exact engineIter_balanced env it st c

/-- C5, counterexample: in a concrete two-iteration run the trace
contains a value-changing write of the termination flag to false (the
reset at the top of iteration 1) performed without holding the mutex,
so the claim that every transition of the flag happens under the mutex
is false of the code: line 235 of stress-pthread.c resets the flag
outside any critical section. -/
theorem flag_reset_without_mutex_counterexample :
    (false, false) ∈ flagTransitions false (engineLoop env5x 1 0 st0).2 := by
  decide

/-- C5 amended: transitions of the termination flag to true are always
performed under the mutex; within a single iteration the flag, starting
from its reset value false, transitions at most once and only to true
under the mutex; and (provided the harness stop flag is monotone within
an iteration) the unprotected reset to false at the top of an iteration
happens only when every thread created so far has been joined, i.e.
only after the previous iteration's reap completed. -/
theorem flag_transitions_one_way (env : EEnv)
    (hmono : ∀ it i, env.keepFlag it i = false → env.keepEnd it = false) :
    (∀ fuel it st (f u : Bool),
        (true, u) ∈ flagTransitions f (engineLoop env fuel it st).2 → u = true) ∧
    (∀ it st, flagTransitions false (engineIter env it st).2.trace = [] ∨
        flagTransitions false (engineIter env it st).2.trace = [(true, true)]) ∧
    (∀ fuel it st c, balancedAt c c (engineLoop env fuel it st).2 = true) := by
  refine ⟨?_, ?_, engineLoop_balanced env hmono⟩
  · intro fuel it st f u h
    exact engineLoop_flagTrue env fuel it st u (flagTransitions_mem _ f true u h)
  · intro it st
    rw [engineIter_trace]
    rw [show ∀ l, flagTransitions false (Ev.flagWrite false false :: l) =
      flagTransitions false l from fun l => rfl]
    refine flagTransitions_false_shape _ fun v u hm => ?_
    rcases List.mem_append.mp hm with h | h
    · rcases spawnLoopAux_mem env it _ _ _ _ h with ⟨idx, h2⟩ | h2 <;> exact Ev.noConfusion h2
    · exact postPhase_fw _ _ _ _ _ _ _ _ _ _ v u h

/-- Witness for flag_transitions_one_way: the monotonicity hypothesis
holds of the concrete environment env5w and the balance conclusion is
obtained at its two-iteration run. -/
theorem flag_transitions_one_way_witness :
    (∀ it i, env5w.keepFlag it i = false → env5w.keepEnd it = false) ∧
      balancedAt 0 0 (engineLoop env5w 1 0 st0).2 = true :=
  ⟨fun it i h => absurd h (by simp [env5w]),
   (flag_transitions_one_way env5w
      (fun it i h => absurd h (by simp [env5w]))).2.2 1 0 st0 0⟩

/-- Per-iteration statistics deltas: attempted grows by exactly one,
and limited grows by at most one, exactly on the EAGAIN exit. -/
theorem engineIter_delta (env : EEnv) (it : Nat) (st : IterSt) :
    (engineIter env it st).1.attempted = st.attempted + 1 ∧
      st.limited ≤ (engineIter env it st).1.limited ∧
      (engineIter env it st).1.limited ≤ st.limited + 1 ∧
      (engineIter env it st).1.limited =
        st.limited + (if (spawnLoopAux env it env.pthread_max 0 st.counter).exit =
          SpawnExit.eagain then 1 else 0) := by
  have h : (engineIter env it st).1.limited =
      st.limited + (if (spawnLoopAux env it env.pthread_max 0 st.counter).exit =
        SpawnExit.eagain then 1 else 0) := rfl
  refine ⟨rfl, ?_, ?_, h⟩ <;> (rw [h]; split <;> omega)

/-- Along the do-while loop, limited stays at most attempted and
attempted strictly grows each iteration. -/
theorem engineLoop_stats (env : EEnv) : ∀ fuel it st,
    st.limited ≤ st.attempted →
    ((engineLoop env fuel it st).1.limited ≤ (engineLoop env fuel it st).1.attempted ∧
      st.attempted + 1 ≤ (engineLoop env fuel it st).1.attempted) := by
  intro fuel
  induction fuel with
  | zero =>
    intro it st h
    have hd := engineIter_delta env it st
    constructor
    · show (engineIter env it st).1.limited ≤ (engineIter env it st).1.attempted
      omega
    · show st.attempted + 1 ≤ (engineIter env it st).1.attempted
      omega
  | succ f ih =>
    intro it st h
    have hd := engineIter_delta env it st
    simp only [engineLoop]
    split
    · have hih := ih (it+1) (engineIter env it st).1 (by omega)
      refine ⟨?_, ?_⟩
      · show (engineLoop env f (it+1) (engineIter env it st).1).1.limited ≤
          (engineLoop env f (it+1) (engineIter env it st).1).1.attempted
        exact hih.1
      · show st.attempted + 1 ≤ (engineLoop env f (it+1) (engineIter env it st).1).1.attempted
        have h2 := hih.2
        omega
    · refine ⟨?_, ?_⟩
      · show (engineIter env it st).1.limited ≤ (engineIter env it st).1.attempted
        omega
      · show st.attempted + 1 ≤ (engineIter env it st).1.attempted
        omega

/-- C10: in every iteration the limited counter grows at most once
(only on the EAGAIN exit) while attempted grows exactly once, so at the
end of any run that got past initialization attempted is at least one,
limited never exceeds attempted, and the reported resource-limited
percentage 100 * limited / attempted lies between 0 and 100. -/
theorem limited_percentage_bounds (env : EEnv) (fuel : Nat) (h : initFails env = false) :
    1 ≤ (stress_pthread env fuel).st.attempted ∧
      (stress_pthread env fuel).st.limited ≤ (stress_pthread env fuel).st.attempted ∧
      (∀ it st, (engineIter env it st).1.attempted = st.attempted + 1 ∧
          (engineIter env it st).1.limited ≤ st.limited + 1) ∧
      0 ≤ 100 * ((stress_pthread env fuel).st.limited : ℚ) /
          ((stress_pthread env fuel).st.attempted : ℚ) ∧
      100 * ((stress_pthread env fuel).st.limited : ℚ) /
          ((stress_pthread env fuel).st.attempted : ℚ) ≤ 100 := by
  have hrun : stress_pthread env fuel =
      ⟨EXIT_SUCCESS, (engineLoop env fuel 0 st0).1, (engineLoop env fuel 0 st0).2⟩ := by
    unfold stress_pthread
    rw [h]
    rfl
  have hstats := engineLoop_stats env fuel 0 st0 (Nat.le_refl 0)
  rw [hrun]
  dsimp only
  have h1 := hstats.1
  have h2 := hstats.2
  have ha1 : 1 ≤ (engineLoop env fuel 0 st0).1.attempted := by
    simpa [st0] using h2
  refine ⟨ha1, h1, ?_, ?_, ?_⟩
  · intro it st
    have hd := engineIter_delta env it st
    exact ⟨hd.1, hd.2.2.1⟩
  · positivity
  · have ha : (0:ℚ) < ((engineLoop env fuel 0 st0).1.attempted : ℚ) := by
      exact_mod_cast Nat.lt_of_lt_of_le Nat.zero_lt_one ha1
    rw [div_le_iff₀ ha]
    have hl : ((engineLoop env fuel 0 st0).1.limited : ℚ) ≤
        ((engineLoop env fuel 0 st0).1.attempted : ℚ) := by exact_mod_cast h1
    nlinarith

/-- Witness for limited_percentage_bounds at a concrete run. -/
theorem limited_percentage_bounds_witness :
    initFails envC10 = false ∧ 1 ≤ (stress_pthread envC10 2).st.attempted ∧
      (stress_pthread envC10 2).st.limited ≤ (stress_pthread envC10 2).st.attempted :=
  ⟨rfl, (limited_percentage_bounds envC10 2 rfl).1,
   (limited_percentage_bounds envC10 2 rfl).2.1⟩

end StressPthread
